import Mathlib

/-!
Verification of the parsing and data-modeling layer of a Timewarrior
report-extension library (`src/lib.rs`).

The development shallowly embeds the Rust source: strings are processed as
`List Char`, Rust's `str::split` / `str::lines`, the `HashMap` configuration,
the serde-derived `Session` decoder with its custom timestamp codec, and the
top-level `TimewarriorData::from_string` entry point are all translated into
executable Lean definitions.  A Rust panic (out-of-bounds indexing into a
split result) is modeled by `Option.none` at the outer level: the entry point
returns `Option (Except ReportError TimewarriorData)`, where `none` means the
original program panics instead of returning.
-/

/-- Models the Rust `ReportError` enum from `src/lib.rs` lines 10-17.
`Io` models the source's I/O variant, `SerdeJson` the serde variant and
`Other` the catch-all variant; each carries a string message. -/
inductive ReportError where
  | Io (msg : String)
  | SerdeJson (msg : String)
  | Other (msg : String)
  deriving DecidableEq, Repr

-- Decidable equality for Except, used to evaluate the model on concrete inputs.
deriving instance DecidableEq for Except

/-! ### Rust string splitting primitives -/

/-- Strips `pat` from the front of `cs`, returning the remainder. -/
def stripPre : List Char → List Char → Option (List Char)
  | [], cs => some cs
  | _ :: _, [] => none
  | p :: ps, c :: cs => if p = c then stripPre ps cs else none

/-- Finds the leftmost occurrence of the (non-empty) separator `sep` in `cs`,
returning the text before it and the text after it. -/
def findSep (sep : List Char) : List Char → Option (List Char × List Char)
  | [] =>
    match stripPre sep [] with
    | some rest => some ([], rest)
    | none => none
  | c :: cs =>
    match stripPre sep (c :: cs) with
    | some rest => some ([], rest)
    | none =>
      match findSep sep cs with
      | some (pre, post) => some (c :: pre, post)
      | none => none

/-- Fuel-indexed worker for `rsplit`. -/
def rsplitAux (sep : List Char) : List Char → Nat → List (List Char)
  | cs, 0 => [cs]
  | cs, fuel + 1 =>
    match findSep sep cs with
    | none => [cs]
    | some (pre, post) => pre :: rsplitAux sep post fuel

/-- Models Rust `str::split` with a non-empty literal separator: the input is
divided at every non-overlapping leftmost occurrence of `sep`. -/
def rsplit (sep : List Char) (cs : List Char) : List (List Char) :=
  rsplitAux sep cs (cs.length + 1)

/-- Drops a trailing carriage return, as Rust `str::lines` does per line. -/
def dropCR (l : List Char) : List Char :=
  if l.getLast? = some '\r' then l.dropLast else l

/-- Models Rust `str::lines`: split at `'\n'`, drop the final empty segment
produced by a trailing newline (or by the empty string), and strip a
trailing `'\r'` from each line. -/
def rlines (cs : List Char) : List (List Char) :=
  let parts := rsplit ['\n'] cs
  let parts := if parts.getLast? = some [] then parts.dropLast else parts
  parts.map dropCR

/-! ### The configuration map (Rust `HashMap<String, String>`) -/

/-- Looks a key up in the association-list model of the config `HashMap`. -/
def cfgLookup (cfg : List (String × String)) (k : String) : Option String :=
  match cfg with
  | [] => none
  | p :: rest => if p.1 = k then some p.2 else cfgLookup rest k

/-- Models `HashMap::insert`: replaces the value when the key is present,
otherwise adds a fresh entry.  Keys stay unique. -/
def cfgInsert (cfg : List (String × String)) (k v : String) : List (String × String) :=
  if cfg.any (fun p => p.1 = k) then
    cfg.map (fun p => if p.1 = k then (k, v) else p)
  else
    cfg ++ [(k, v)]

/-- Models `HashMap` equality (`PartialEq`): same size and every entry of the
left map is found with the same value in the right map. -/
def cfgEqb (a b : List (String × String)) : Bool :=
  a.length = b.length && a.all (fun p => cfgLookup b p.1 = some p.2)

/-- Processes one header line, `src/lib.rs` lines 129-132: the line is split
at every `": "` occurrence; `setting[0]` is the key and `setting[1]` the
value.  A line with no `": "` makes the Rust code index out of bounds
(panic), modeled by `none`. -/
def headerStep (cfg : List (String × String)) (line : List Char) :
    Option (List (String × String)) :=
  match rsplit [':', ' '] line with
  | k :: v :: _ => some (cfgInsert cfg k.asString v.asString)
  | _ => none

/-- Runs `headerStep` over a list of header lines. -/
def configLoop (lines : List (List Char)) (cfg : List (String × String)) :
    Option (List (String × String)) :=
  match lines with
  | [] => some cfg
  | l :: rest =>
    match headerStep cfg l with
    | none => none
    | some cfg' => configLoop rest cfg'

/-- Builds the config map from the header section, `src/lib.rs` lines 128-132:
iterate over `input_vec[0].lines()`, inserting each key/value pair. -/
def configOfHeaderS (hdr : String) : Option (List (String × String)) :=
  configLoop (rlines hdr.toList) []

/-! ### The timestamp codec (`my_date_format`, `src/lib.rs` lines 43-78)

The Rust code calls `Utc.datetime_from_str(&s, "%Y%m%dT%H%M%SZ")` and then
converts the parsed instant to the local time zone.  Conversion between time
zones is a bijection on instants and `DateTime` equality compares instants,
so the stored value is modeled by the UTC civil time itself.

The parser follows chrono 0.4's strftime engine item by item for the item
sequence `[Numeric Year, Numeric Month, Numeric Day, Literal "T",
Numeric Hour, Numeric Minute, Numeric Second, Literal "Z"]`: whitespace is
trimmed before every numeric item; an unsigned numeric item consumes one up
to `width` digits greedily (chrono's `scan::number(s, 1, width)` — zero
padding is NOT required when parsing); the year additionally accepts an
explicit sign followed by arbitrarily many digits; literals must match
exactly with no trimming; leftover input after the last item is `TOO_LONG`;
and the collected fields are validated as a calendar date and time of day
by `Parsed::to_naive_date` / `to_naive_time` (second `60` admitted as a
leap second).  The error cases carry chrono's diagnostic strings. -/

/-- The instant denoted by a parsed wire timestamp, as its UTC civil-time
fields.  `DateTime<Local>` equality in chrono compares the underlying
instant, which these fields determine. -/
structure Instant where
  year : Int
  month : Nat
  day : Nat
  hour : Nat
  minute : Nat
  second : Nat
  deriving DecidableEq, Repr

/-- chrono's parse-error cases reachable for this format. -/
inductive PErr where
  | tooShort
  | invalid
  | outOfRange
  | tooLong
  deriving DecidableEq, Repr

/-- The diagnostic string of each parse error (chrono `ParseError`
`Display`). -/
def PErr.msg : PErr → String
  | PErr.tooShort => "premature end of input"
  | PErr.invalid => "input contains invalid characters"
  | PErr.outOfRange => "input is out of range"
  | PErr.tooLong => "trailing input"

/-- Numeric value of a list of decimal digit characters. -/
def digitsToNat (ds : List Char) : Nat :=
  ds.foldl (fun a c => a * 10 + (c.toNat - 48)) 0

/-- Whitespace as trimmed by `trim_left` before numeric items (the ASCII
part of Unicode `White_Space`; non-ASCII whitespace is outside the model). -/
def isRustSpace (c : Char) : Bool :=
  c = ' ' || c = '\t' || c = '\n' || c = '\x0b' || c = '\x0c' || c = '\r'

/-- Drops leading whitespace (`s.trim_left()`). -/
def trimLeft (cs : List Char) : List Char :=
  cs.dropWhile isRustSpace

/-- chrono `scan::number(s, minD, maxD)`: consume up to `maxD` leading
digits greedily; an empty input is `TOO_SHORT`, fewer than `minD` digits is
`INVALID`, a digit run overflowing `i64` is `OUT_OF_RANGE` (chrono checks
the accumulator per digit; bounding the final value is equivalent). -/
def scanNumber (cs : List Char) (minD maxD : Nat) : Except PErr (Nat × List Char) :=
  if cs.length < minD then Except.error PErr.tooShort
  else
    let ds := (cs.take maxD).takeWhile Char.isDigit
    if ds.length < minD then Except.error PErr.invalid
    else if digitsToNat ds > 9223372036854775807 then Except.error PErr.outOfRange
    else Except.ok (digitsToNat ds, cs.drop ds.length)

/-- An unsigned numeric item of padded width `w`: chrono parses it as 1 to
`w` digits after trimming whitespace. -/
def numUnsigned (w : Nat) (cs : List Char) : Except PErr (Nat × List Char) :=
  scanNumber (trimLeft cs) 1 w

/-- The `%Y` item: after trimming, either an explicit sign followed by any
number of digits, or — unsigned — 1 to 4 digits; the value must fit `i32`
(`Parsed::set_year`, checked at this item before the next is parsed). -/
def numYear (cs : List Char) : Except PErr (Int × List Char) :=
  match trimLeft cs with
  | '-' :: rest =>
    match scanNumber rest 1 rest.length with
    | Except.error e => Except.error e
    | Except.ok (v, r) => checkYear (-(v : Int)) r
  | '+' :: rest =>
    match scanNumber rest 1 rest.length with
    | Except.error e => Except.error e
    | Except.ok (v, r) => checkYear (v : Int) r
  | cs' =>
    match scanNumber cs' 1 4 with
    | Except.error e => Except.error e
    | Except.ok (v, r) => checkYear (v : Int) r
where
  checkYear (y : Int) (r : List Char) : Except PErr (Int × List Char) :=
    if y < -2147483648 ∨ 2147483647 < y then Except.error PErr.outOfRange
    else Except.ok (y, r)

/-- A literal format item: the next character must match exactly (an empty
remainder is `TOO_SHORT`, a mismatch `INVALID`); no whitespace trimming. -/
def litItem (c : Char) (cs : List Char) : Except PErr (List Char) :=
  match cs with
  | [] => Except.error PErr.tooShort
  | x :: rest => if x = c then Except.ok rest else Except.error PErr.invalid

/-- Gregorian leap-year test (`Int` `%` is `emod`, keeping the 400-year
cycle correct for negative years). -/
def isLeap (y : Int) : Bool :=
  y % 4 = 0 && (y % 100 ≠ 0 || y % 400 = 0)

/-- Number of days of month `m` of year `y`. -/
def daysInMonth (y : Int) (m : Nat) : Nat :=
  if m = 2 then (if isLeap y then 29 else 28)
  else if m = 4 ∨ m = 6 ∨ m = 9 ∨ m = 11 then 30
  else 31

/-- `Parsed::to_naive_date` / `to_naive_time` validation: year within
`NaiveDate`'s range, a valid proleptic Gregorian date, hour to 23, minute
to 59, second to 60 (60 is a leap second). -/
def fieldsValid (y : Int) (mo d h mi se : Nat) : Bool :=
  -262144 ≤ y && y ≤ 262143 && 1 ≤ mo && mo ≤ 12 && 1 ≤ d &&
  d ≤ daysInMonth y mo && h ≤ 23 && mi ≤ 59 && se ≤ 60

/-- Runs the item sequence of `"%Y%m%dT%H%M%SZ"` over the input and
validates the collected fields, as chrono's `parse` followed by
`Parsed::to_datetime_with_timezone(&Utc)` does. -/
def parseWire (cs : List Char) : Except PErr Instant :=
  match numYear cs with
  | Except.error e => Except.error e
  | Except.ok (y, cs1) =>
    match numUnsigned 2 cs1 with
    | Except.error e => Except.error e
    | Except.ok (mo, cs2) =>
      match numUnsigned 2 cs2 with
      | Except.error e => Except.error e
      | Except.ok (d, cs3) =>
        match litItem 'T' cs3 with
        | Except.error e => Except.error e
        | Except.ok cs4 =>
          match numUnsigned 2 cs4 with
          | Except.error e => Except.error e
          | Except.ok (h, cs5) =>
            match numUnsigned 2 cs5 with
            | Except.error e => Except.error e
            | Except.ok (mi, cs6) =>
              match numUnsigned 2 cs6 with
              | Except.error e => Except.error e
              | Except.ok (se, cs7) =>
                match litItem 'Z' cs7 with
                | Except.error e => Except.error e
                | Except.ok cs8 =>
                  if cs8 ≠ [] then Except.error PErr.tooLong
                  else if fieldsValid y mo d h mi se then
                    Except.ok ⟨y, mo, d, h, mi, se⟩
                  else Except.error PErr.outOfRange

/-- Models `Utc.datetime_from_str(&s, "%Y%m%dT%H%M%SZ")` (`src/lib.rs`
lines 47, 54-57): chrono's flexible-width strftime parse of the format,
with the parse error rendered to its diagnostic string (the payload serde
then wraps). -/
def datetime_from_str (s : String) : Except String Instant :=
  match parseWire s.toList with
  | Except.error e => Except.error e.msg
  | Except.ok i => Except.ok i

/-- Specification-side predicate, used only to state claims: whether `s`
matches the exact zero-padded pattern `YYYYMMDDTHHMMSSZ` — sixteen
characters, digits at the numeric positions, literal `T` at index 8 and
literal `Z` at index 15.  The codec above does NOT require this shape:
chrono accepts unpadded fields. -/
def exactWirePattern (s : String) : Bool :=
  match s.toList with
  | [y1, y2, y3, y4, a1, a2, d1, d2, t, h1, h2, n1, n2, e1, e2, z] =>
    y1.isDigit && y2.isDigit && y3.isDigit && y4.isDigit &&
    a1.isDigit && a2.isDigit && d1.isDigit && d2.isDigit &&
    t = 'T' &&
    h1.isDigit && h2.isDigit && n1.isDigit && n2.isDigit &&
    e1.isDigit && e2.isDigit && z = 'Z'
  | _ => false


/-! ### JSON (modeling the `serde_json` dependency)

The session body is decoded with `serde_json::from_str::<Vec<Session>>`.
The model parses the text into a JSON value first and then runs the
serde-derive field rules over that value; this is observationally the same
for success and for the error kind.  Restrictions of the model, marked
below: numbers are JSON integers (the session wire format only carries the
integer `id`) and `\u` string escapes are not interpreted. -/

/-- A JSON value. -/
inductive Json where
  | null
  | bool (b : Bool)
  | num (n : Int)
  | str (s : String)
  | arr (xs : List Json)
  | obj (fields : List (String × Json))
  deriving Repr

/-- Skips JSON insignificant whitespace. -/
def jskip : List Char → List Char
  | [] => []
  | c :: cs =>
    if c = ' ' ∨ c = '\n' ∨ c = '\t' ∨ c = '\r' then jskip cs else c :: cs

/-- Translates a single-character string escape. -/
def jesc (c : Char) : Option Char :=
  if c = '"' then some '"'
  else if c = '\\' then some '\\'
  else if c = '/' then some '/'
  else if c = 'n' then some '\n'
  else if c = 't' then some '\t'
  else if c = 'r' then some '\r'
  else if c = 'b' then some '\x08'
  else if c = 'f' then some '\x0c'
  else none

/-- Reads the remainder of a JSON string literal (the opening quote already
consumed), returning its characters and the rest of the input. -/
def jstrAux : Nat → List Char → List Char → Except String (List Char × List Char)
  | 0, _, _ => Except.error "recursion limit exceeded"
  | _ + 1, _, [] => Except.error "EOF while parsing a string"
  | fuel + 1, acc, c :: cs =>
    if c = '"' then Except.ok (acc.reverse, cs)
    else if c = '\\' then
      match cs with
      | [] => Except.error "EOF while parsing a string"
      | e :: rest =>
        match jesc e with
        | some d => jstrAux fuel (d :: acc) rest
        | none => Except.error "invalid escape"
    else if c.toNat < 32 then Except.error "control character in string"
    else jstrAux fuel (c :: acc) cs

/-- Splits the longest run of leading decimal digits off a character list. -/
def spanDigits : List Char → List Char × List Char
  | [] => ([], [])
  | c :: cs =>
    if c.isDigit then
      let (d, r) := spanDigits cs
      (c :: d, r)
    else ([], c :: cs)

/-- Reads an unsigned JSON integer (no leading zeros; fractions and
exponents are outside the model, see the section comment). -/
def jnumNat (cs : List Char) : Except String (Nat × List Char) :=
  match spanDigits cs with
  | ([], _) => Except.error "invalid number"
  | (d :: ds, rest) =>
    if d = '0' ∧ ds ≠ [] then Except.error "invalid number: leading zero"
    else
      match rest with
      | '.' :: _ => Except.error "unsupported number: fraction"
      | 'e' :: _ => Except.error "unsupported number: exponent"
      | 'E' :: _ => Except.error "unsupported number: exponent"
      | _ => Except.ok (digitsToNat (d :: ds), rest)

/-- Reads a JSON integer with an optional leading minus sign. -/
def jnum (cs : List Char) : Except String (Json × List Char) :=
  match cs with
  | '-' :: rest =>
    match jnumNat rest with
    | Except.error e => Except.error e
    | Except.ok (n, r) => Except.ok (Json.num (-(n : Int)), r)
  | _ =>
    match jnumNat cs with
    | Except.error e => Except.error e
    | Except.ok (n, r) => Except.ok (Json.num (n : Int), r)

mutual

/-- Parses one JSON value from the input. -/
def jval : Nat → List Char → Except String (Json × List Char)
  | 0, _ => Except.error "recursion limit exceeded"
  | fuel + 1, cs =>
    match jskip cs with
    | 'n' :: 'u' :: 'l' :: 'l' :: rest => Except.ok (Json.null, rest)
    | 't' :: 'r' :: 'u' :: 'e' :: rest => Except.ok (Json.bool true, rest)
    | 'f' :: 'a' :: 'l' :: 's' :: 'e' :: rest => Except.ok (Json.bool false, rest)
    | '"' :: rest =>
      match jstrAux fuel [] rest with
      | Except.error e => Except.error e
      | Except.ok (s, r) => Except.ok (Json.str s.asString, r)
    | '[' :: rest => jarr fuel (jskip rest)
    | '\x7b' :: rest => jobj fuel (jskip rest)
    | c :: rest =>
      if c.isDigit ∨ c = '-' then jnum (c :: rest)
      else Except.error "expected value"
    | [] => Except.error "EOF while parsing a value"

/-- Parses an array body after the opening bracket (whitespace skipped). -/
def jarr : Nat → List Char → Except String (Json × List Char)
  | 0, _ => Except.error "recursion limit exceeded"
  | fuel + 1, cs =>
    match cs with
    | ']' :: rest => Except.ok (Json.arr [], rest)
    | _ => jarrElems fuel [] cs

/-- Parses the comma-separated elements of a non-empty array. -/
def jarrElems : Nat → List Json → List Char → Except String (Json × List Char)
  | 0, _, _ => Except.error "recursion limit exceeded"
  | fuel + 1, acc, cs =>
    match jval fuel cs with
    | Except.error e => Except.error e
    | Except.ok (v, rest) =>
      match jskip rest with
      | ',' :: rest' => jarrElems fuel (v :: acc) rest'
      | ']' :: rest' => Except.ok (Json.arr (v :: acc).reverse, rest')
      | _ => Except.error "expected comma or closing bracket"

/-- Parses an object body after the opening brace (whitespace skipped). -/
def jobj : Nat → List Char → Except String (Json × List Char)
  | 0, _ => Except.error "recursion limit exceeded"
  | fuel + 1, cs =>
    match cs with
    | '\x7d' :: rest => Except.ok (Json.obj [], rest)
    | _ => jobjMems fuel [] cs

/-- Parses the comma-separated members of a non-empty object. -/
def jobjMems : Nat → List (String × Json) → List Char →
    Except String (Json × List Char)
  | 0, _, _ => Except.error "recursion limit exceeded"
  | fuel + 1, acc, cs =>
    match cs with
    | '"' :: rest =>
      match jstrAux fuel [] rest with
      | Except.error e => Except.error e
      | Except.ok (k, rest₁) =>
        match jskip rest₁ with
        | ':' :: rest₂ =>
          match jval fuel rest₂ with
          | Except.error e => Except.error e
          | Except.ok (v, rest₃) =>
            match jskip rest₃ with
            | ',' :: rest₄ => jobjMems fuel ((k.asString, v) :: acc) (jskip rest₄)
            | '\x7d' :: rest₄ =>
              Except.ok (Json.obj ((k.asString, v) :: acc).reverse, rest₄)
            | _ => Except.error "expected comma or closing brace"
        | _ => Except.error "expected colon"
    | _ => Except.error "key must be a string"

end

/-- Parses a complete JSON document: one value and then only whitespace. -/
def parseJsonStr (s : String) : Except String Json :=
  match jval (2 * s.length + 2) s.toList with
  | Except.error e => Except.error e
  | Except.ok (v, rest) =>
    if jskip rest = [] then Except.ok v
    else Except.error "trailing characters"

/-! ### Sessions (`src/lib.rs` lines 140-184) -/

/-- Models the Rust `Session` struct (`src/lib.rs` lines 140-156).  The Rust
field `end` is named `endTime` here because `end` is a Lean keyword. -/
structure Session where
  id : Nat
  start : Instant
  endTime : Option Instant
  tags : List String
  annotation : Option String
  deriving DecidableEq, Repr

/-- Accumulator for the serde-derived field loop of `Session`: one slot per
struct field, `none` while the field has not been seen. -/
structure SessAcc where
  idF : Option Nat
  startF : Option Instant
  endF : Option (Option Instant)
  tagsF : Option (List String)
  annF : Option (Option String)
  deriving DecidableEq, Repr

/-- Decodes a JSON array as `Vec<String>` (the `tags` field). -/
def decodeStrings : List Json → Except String (List String)
  | [] => Except.ok []
  | Json.str s :: rest =>
    match decodeStrings rest with
    | Except.error e => Except.error e
    | Except.ok ss => Except.ok (s :: ss)
  | _ :: _ => Except.error "invalid type: expected a string in tags"

/-- One step of the serde-derived `Deserialize` impl for `Session`: dispatch
on the field name, reject duplicate fields, apply the field's decode rule
(`id` is a `usize`, `start`/`end` go through the custom timestamp codec,
`tags` is `Vec<String>`, `annotation` is `Option<String>`), and ignore
unknown fields (serde's default). -/
def decodeField (acc : SessAcc) (kv : String × Json) : Except String SessAcc :=
  if kv.1 = "id" then
    match acc.idF with
    | some _ => Except.error "duplicate field id"
    | none =>
      match kv.2 with
      | Json.num n =>
        if n < 0 then Except.error "invalid value: negative integer for usize"
        else Except.ok { acc with idF := some n.toNat }
      | _ => Except.error "invalid type: expected an integer for field id"
  else if kv.1 = "start" then
    match acc.startF with
    | some _ => Except.error "duplicate field start"
    | none =>
      match kv.2 with
      | Json.str s =>
        match datetime_from_str s with
        | Except.error e => Except.error e
        | Except.ok i => Except.ok { acc with startF := some i }
      | _ => Except.error "invalid type: expected a string for field start"
  else if kv.1 = "end" then
    match acc.endF with
    | some _ => Except.error "duplicate field end"
    | none =>
      match kv.2 with
      | Json.str s =>
        match datetime_from_str s with
        | Except.error e => Except.error e
        | Except.ok i => Except.ok { acc with endF := some (some i) }
      | _ => Except.error "invalid type: expected a string for field end"
  else if kv.1 = "tags" then
    match acc.tagsF with
    | some _ => Except.error "duplicate field tags"
    | none =>
      match kv.2 with
      | Json.arr xs =>
        match decodeStrings xs with
        | Except.error e => Except.error e
        | Except.ok ts => Except.ok { acc with tagsF := some ts }
      | _ => Except.error "invalid type: expected an array for field tags"
  else if kv.1 = "annotation" then
    match acc.annF with
    | some _ => Except.error "duplicate field annotation"
    | none =>
      match kv.2 with
      | Json.str s => Except.ok { acc with annF := some (some s) }
      | Json.null => Except.ok { acc with annF := some none }
      | _ => Except.error "invalid type: expected a string or null for field annotation"
  else
    Except.ok acc

/-- Runs `decodeField` over the members of a JSON object. -/
def decodeFields (acc : SessAcc) : List (String × Json) → Except String SessAcc
  | [] => Except.ok acc
  | kv :: rest =>
    match decodeField acc kv with
    | Except.error e => Except.error e
    | Except.ok acc' => decodeFields acc' rest

/-- Decodes one JSON value as a `Session`: requires an object, folds the
field rules over its members, then finalizes — `id`, `start` and `tags` are
required; a missing `end` defaults to `None` (`#[serde(default)]`,
`src/lib.rs` line 148); a missing `annotation` is `None` (serde's `Option`
rule). -/
def decodeSession (j : Json) : Except String Session :=
  match j with
  | Json.obj fields =>
    match decodeFields ⟨none, none, none, none, none⟩ fields with
    | Except.error e => Except.error e
    | Except.ok ⟨some i, some st, e, some tg, a⟩ =>
      Except.ok ⟨i, st, e.getD none, tg, a.getD none⟩
    | Except.ok ⟨none, _, _, _, _⟩ => Except.error "missing field id"
    | Except.ok ⟨_, none, _, _, _⟩ => Except.error "missing field start"
    | Except.ok ⟨_, _, _, none, _⟩ => Except.error "missing field tags"
  | _ => Except.error "invalid type: expected struct Session"

/-- Decodes a JSON value as `Vec<Session>`: the value must be an array and
every element must decode. -/
def decodeSessions : Json → Except String (List Session)
  | Json.arr xs => decodeSessionList xs
  | _ => Except.error "invalid type: expected a sequence"
where
  decodeSessionList : List Json → Except String (List Session)
    | [] => Except.ok []
    | x :: rest =>
      match decodeSession x with
      | Except.error e => Except.error e
      | Except.ok s =>
        match decodeSessionList rest with
        | Except.error e => Except.error e
        | Except.ok ss => Except.ok (s :: ss)

/-- Models `serde_json::from_str::<Session>`, as used by the repository's
unit tests. -/
def sessionFromStr (s : String) : Except String Session :=
  match parseJsonStr s with
  | Except.error e => Except.error e
  | Except.ok j => decodeSession j

/-- Models `Session::from_json` (`src/lib.rs` lines 181-183):
`serde_json::from_str::<Vec<Session>>`, with the serde error converted into
`ReportError::SerdeJson` by the `From` impl (`src/lib.rs` lines 37-41). -/
def Session.from_json (data : String) : Except ReportError (List Session) :=
  match parseJsonStr data with
  | Except.error e => Except.error (ReportError.SerdeJson e)
  | Except.ok j =>
    match decodeSessions j with
    | Except.error e => Except.error (ReportError.SerdeJson e)
    | Except.ok ss => Except.ok ss

/-! ### Equality and ordering of sessions (`src/lib.rs` lines 158-178) -/

/-- Models `PartialEq for Session` (`src/lib.rs` lines 158-166): all five
fields must match, in the source's comparison order. -/
def Session.eqb (a b : Session) : Bool :=
  match a, b with
  | ⟨i, s, e, t, an⟩, ⟨i', s', e', t', an'⟩ =>
    decide (s = s') && decide (e = e') && decide (i = i') &&
    decide (t = t') && decide (an = an')

/-- Models `Ord for Session` (`src/lib.rs` lines 168-172): comparison is by
`id` alone. -/
def Session.cmp (a b : Session) : Ordering :=
  compare a.id b.id

/-- Models `PartialOrd for Session` (`src/lib.rs` lines 174-178):
`partial_cmp` is `Some(cmp)`. -/
def Session.partCmp (a b : Session) : Option Ordering :=
  some (Session.cmp a b)

/-! ### The report model (`src/lib.rs` lines 80-137) -/

/-- Models the Rust `TimewarriorData` struct (`src/lib.rs` lines 82-87): the
config `HashMap` (as an association list with unique keys) and the session
vector. -/
structure TimewarriorData where
  config : List (String × String)
  sessions : List Session
  deriving DecidableEq, Repr

/-- Elementwise `Vec<Session>` equality through `Session`'s `PartialEq`. -/
def sessionsEqb : List Session → List Session → Bool
  | [], [] => true
  | a :: as, b :: bs => Session.eqb a b && sessionsEqb as bs
  | _, _ => false

/-- Models `PartialEq for TimewarriorData` (`src/lib.rs` lines 89-93):
config maps equal and session vectors equal. -/
def TimewarriorData.eqb (a b : TimewarriorData) : Bool :=
  cfgEqb a.config b.config && sessionsEqb a.sessions b.sessions

/-- The segments of the raw input around every `"\n\n"` occurrence:
`input.split("\n\n").collect::<Vec<&str>>()` from `src/lib.rs` line 127. -/
def splitInput (input : String) : List String :=
  (rsplit ['\n', '\n'] input.toList).map List.asString

/-- Models `TimewarriorData::from_string` (`src/lib.rs` lines 126-137):
split the input at every `"\n\n"`, build the config from the lines of
segment 0, decode segment 1 as the session JSON.  The Rust code indexes
`input_vec[1]` and `setting[1]` without bounds checks; those panics are
modeled by `none`. -/
def TimewarriorData.from_string (input : String) :
    Option (Except ReportError TimewarriorData) :=
  match configOfHeaderS ((splitInput input).headD "") with
  | none => none
  | some config =>
    match (splitInput input)[1]? with
    | none => none
    | some body =>
      some (match Session.from_json body with
            | Except.error e => Except.error e
            | Except.ok ss => Except.ok ⟨config, ss⟩)

/-! ### Auxiliary specification-side definitions used by the claim theorems -/

/-- The key/value pair a header line yields: segment 0 and segment 1 of the
`": "` split, when the line has at least one `": "`. -/
def lineKV (line : List Char) : Option (String × String) :=
  match rsplit [':', ' '] line with
  | k :: v :: _ => some (k.asString, v.asString)
  | _ => none

/-- The value of key `k` after processing a list of header lines, starting
from `acc`: the last line whose key is `k` wins. -/
def lastValFrom (ls : List (List Char)) (k : String) (acc : Option String) :
    Option String :=
  match ls with
  | [] => acc
  | l :: rest =>
    match lineKV l with
    | some (k', v) => lastValFrom rest k (if k' = k then some v else acc)
    | none => lastValFrom rest k acc

/-- A session JSON record whose `start` is the string `s`, with no `end`
field (the shape used by the repository's no-end-date unit test). -/
def startRecord (s : String) : Json :=
  Json.obj [("id", Json.num 1), ("start", Json.str s),
            ("tags", Json.arr []), ("annotation", Json.null)]

/-- A session JSON record with a valid `start` and whose `end` field is the
string `s`. -/
def endRecord (s : String) : Json :=
  Json.obj [("id", Json.num 1), ("start", Json.str "20210711T103400Z"),
            ("end", Json.str s), ("tags", Json.arr []),
            ("annotation", Json.null)]


/-! ### Helper lemmas about the configuration map -/

/-- Replacing under key `k` makes `k` map to the new value (when present). -/
theorem cfgLookup_replace_self (cfg : List (String × String)) (k v : String)
    (hany : cfg.any (fun p => p.1 = k) = true) :
    cfgLookup (cfg.map (fun p => if p.1 = k then (k, v) else p)) k = some v := by
  induction cfg with
  | nil => simp at hany
  | cons p rest ih =>
    obtain ⟨a, b⟩ := p
    by_cases hk : a = k
    · subst hk
      simp [cfgLookup]
    · simp only [List.any_cons, Bool.or_eq_true, decide_eq_true_eq] at hany
      rcases hany with h | h
      · exact absurd h hk
      · simpa [cfgLookup, hk] using ih h

/-- Replacing under key `k` does not change other keys. -/
theorem cfgLookup_replace_other (cfg : List (String × String)) (k v k' : String)
    (hne : k' ≠ k) :
    cfgLookup (cfg.map (fun p => if p.1 = k then (k, v) else p)) k' =
      cfgLookup cfg k' := by
  induction cfg with
  | nil => simp
  | cons p rest ih =>
    obtain ⟨a, b⟩ := p
    by_cases hk : a = k
    · subst hk
      have h1 : ¬a = k' := fun h => hne h.symm
      simp [cfgLookup, h1, ih]
    · by_cases hk' : a = k'
      · subst hk'
        simp [cfgLookup, hk]
      · simp [cfgLookup, hk, hk', ih]

/-- Appending an entry with a fresh key makes that key map to its value. -/
theorem cfgLookup_append_self (cfg : List (String × String)) (k v : String)
    (hany : cfg.any (fun p => p.1 = k) = false) :
    cfgLookup (cfg ++ [(k, v)]) k = some v := by
  induction cfg with
  | nil => simp [cfgLookup]
  | cons p rest ih =>
    obtain ⟨a, b⟩ := p
    simp only [List.any_cons, Bool.or_eq_false_iff, decide_eq_false_iff_not] at hany
    simp [cfgLookup, hany.1, ih hany.2]

/-- Appending an entry does not change other keys. -/
theorem cfgLookup_append_other (cfg : List (String × String)) (k v k' : String)
    (hne : k' ≠ k) :
    cfgLookup (cfg ++ [(k, v)]) k' = cfgLookup cfg k' := by
  induction cfg with
  | nil => have h1 : ¬k = k' := fun h => hne h.symm
           simp [cfgLookup, h1]
  | cons p rest ih =>
    obtain ⟨a, b⟩ := p
    by_cases hk : a = k'
    · subst hk
      simp [cfgLookup]
    · simp [cfgLookup, hk, ih]

/-- `cfgInsert` stores the inserted value under the inserted key. -/
theorem cfgLookup_cfgInsert_self (cfg : List (String × String)) (k v : String) :
    cfgLookup (cfgInsert cfg k v) k = some v := by
  unfold cfgInsert
  split
  case isTrue hany => exact cfgLookup_replace_self cfg k v hany
  case isFalse hany =>
    exact cfgLookup_append_self cfg k v (Bool.eq_false_iff.mpr hany)

/-- `cfgInsert` leaves every other key unchanged. -/
theorem cfgLookup_cfgInsert_other (cfg : List (String × String)) (k v k' : String)
    (hne : k' ≠ k) : cfgLookup (cfgInsert cfg k v) k' = cfgLookup cfg k' := by
  unfold cfgInsert
  split
  case isTrue hany => exact cfgLookup_replace_other cfg k v k' hne
  case isFalse hany => exact cfgLookup_append_other cfg k v k' hne

/-- `cfgInsert` preserves distinctness of the keys. -/
theorem cfgInsert_keys_nodup (cfg : List (String × String)) (k v : String)
    (h : (cfg.map Prod.fst).Nodup) :
    ((cfgInsert cfg k v).map Prod.fst).Nodup := by
  unfold cfgInsert
  split
  case isTrue hany =>
    have hkeys : (cfg.map (fun p => if p.1 = k then (k, v) else p)).map Prod.fst =
        cfg.map Prod.fst := by
      rw [List.map_map]
      apply List.map_congr_left
      intro p hp
      by_cases hk : p.1 = k
      · simp [Function.comp, hk]
      · simp [Function.comp, hk]
    rw [hkeys]
    exact h
  case isFalse hany =>
    rw [List.map_append]
    apply List.Nodup.append h (List.nodup_singleton k)
    intro a ha hb
    simp only [List.map_cons, List.map_nil, List.mem_singleton] at hb
    subst hb
    apply hany
    simp only [List.mem_map] at ha
    obtain ⟨p, hp, hpa⟩ := ha
    simp only [List.any_eq_true, decide_eq_true_eq]
    exact ⟨p, hp, hpa⟩

/-- With distinct keys, every stored entry is found by `cfgLookup`. -/
theorem cfgLookup_of_mem (cfg : List (String × String)) (p : String × String)
    (hnd : (cfg.map Prod.fst).Nodup) (hp : p ∈ cfg) :
    cfgLookup cfg p.1 = some p.2 := by
  induction cfg with
  | nil => cases hp
  | cons q rest ih =>
    rcases List.mem_cons.mp hp with hq | hq
    · subst hq
      simp [cfgLookup]
    · have hq1 : q.1 ≠ p.1 := by
        intro hcontra
        have : q.1 ∈ rest.map Prod.fst := by
          rw [hcontra]
          exact List.mem_map.mpr ⟨p, hq, rfl⟩
        exact (List.nodup_cons.mp (by simpa using hnd)).1 this
      simp only [cfgLookup, hq1, if_false]
      exact ih (List.nodup_cons.mp (by simpa using hnd)).2 hq

/-- `cfgEqb` (the `HashMap` equality model) is reflexive on maps with
distinct keys — every map the parser builds has distinct keys. -/
theorem cfgEqb_refl (cfg : List (String × String))
    (hnd : (cfg.map Prod.fst).Nodup) : cfgEqb cfg cfg = true := by
  unfold cfgEqb
  refine Bool.and_eq_true_iff.mpr ⟨by simp, ?_⟩
  rw [List.all_eq_true]
  intro p hp
  simpa using cfgLookup_of_mem cfg p hnd hp

/-- `Session.eqb` is reflexive. -/
theorem sessionEqb_refl (a : Session) : Session.eqb a a = true := by
  obtain ⟨i, s, e, t, an⟩ := a
  simp [Session.eqb]

/-- `sessionsEqb` is reflexive. -/
theorem sessionsEqb_refl (l : List Session) : sessionsEqb l l = true := by
  induction l with
  | nil => rfl
  | cons a rest ih => simp [sessionsEqb, sessionEqb_refl, ih]

/-- `headerStep` in terms of `lineKV`: a line with a `": "` separator inserts
its key/value pair, a line without one panics. -/
theorem headerStep_eq (cfg : List (String × String)) (line : List Char) :
    headerStep cfg line =
      match lineKV line with
      | some (k, v) => some (cfgInsert cfg k v)
      | none => none := by
  unfold headerStep lineKV
  cases hr : rsplit [':', ' '] line with
  | nil => rfl
  | cons x xs =>
    cases xs with
    | nil => rfl
    | cons y ys => rfl

/-- Soundness of the header loop: when it returns a map, the keys are
distinct (given a distinct-key start) and each key's value is the one from
the last line with that key. -/
theorem configLoop_sound (ls : List (List Char)) :
    ∀ cfg0 cfg, configLoop ls cfg0 = some cfg →
      ((cfg0.map Prod.fst).Nodup → (cfg.map Prod.fst).Nodup) ∧
      ∀ k, cfgLookup cfg k = lastValFrom ls k (cfgLookup cfg0 k) := by
  induction ls with
  | nil =>
    intro cfg0 cfg h
    simp only [configLoop, Option.some.injEq] at h
    subst h
    exact ⟨id, fun k => rfl⟩
  | cons l rest ih =>
    intro cfg0 cfg h
    unfold configLoop at h
    cases hhs : headerStep cfg0 l with
    | none => rw [hhs] at h; cases h
    | some cfg' =>
      rw [hhs] at h
      rw [headerStep_eq] at hhs
      cases hl : lineKV l with
      | none => rw [hl] at hhs; cases hhs
      | some kv =>
        obtain ⟨kk, vv⟩ := kv
        rw [hl] at hhs
        have hc : cfg' = cfgInsert cfg0 kk vv := by
          injection hhs with h'
          exact h'.symm
        obtain ⟨ihn, ihl⟩ := ih cfg' cfg h
        constructor
        · intro h0
          exact ihn (hc ▸ cfgInsert_keys_nodup cfg0 kk vv h0)
        · intro k
          rw [ihl k]
          simp only [lastValFrom, hl]
          subst hc
          by_cases hkk : kk = k
          · subst hkk
            rw [cfgLookup_cfgInsert_self]
            simp
          · have hne : k ≠ kk := fun hh => hkk hh.symm
            rw [cfgLookup_cfgInsert_other cfg0 kk vv k hne]
            simp [hkk]

/-- Inversion of a successful `from_string`: the model's config comes from
`configOfHeaderS` on segment 0 (hence has distinct keys) and the sessions
from `Session.from_json` on segment 1. -/
theorem from_string_ok_nodup (input : String) (r : TimewarriorData)
    (h : TimewarriorData.from_string input = some (Except.ok r)) :
    (r.config.map Prod.fst).Nodup := by
  unfold TimewarriorData.from_string at h
  cases hc : configOfHeaderS ((splitInput input).headD "") with
  | none => rw [hc] at h; cases h
  | some cfg =>
    rw [hc] at h
    dsimp only at h
    cases hb : (splitInput input)[1]? with
    | none => rw [hb] at h; cases h
    | some body =>
      rw [hb] at h
      dsimp only at h
      cases hj : Session.from_json body with
      | error e => rw [hj] at h; simp at h
      | ok ss =>
        rw [hj] at h
        have hr : r = ⟨cfg, ss⟩ := by
          simp only [Option.some.injEq, Except.ok.injEq] at h
          exact h.symm
        subst hr
        unfold configOfHeaderS at hc
        exact (configLoop_sound _ [] cfg hc).1 (by simp)

/-- Claim C10: session ordering is total and consistent: `partial_cmp` is
always defined and equals `Some(cmp(a, b))`. -/
theorem partCmp_total_and_consistent (a b : Session) :
    Session.partCmp a b = some (Session.cmp a b) ∧
    (Session.partCmp a b).isSome = true :=
  ⟨rfl, rfl⟩

/-- Claim C4: two sessions with identical `id` but different `tags` compare
as `Equal` under `Ord::cmp` yet are not equal under `PartialEq`. -/
theorem cmp_equal_but_not_eq (a b : Session) (hid : a.id = b.id)
    (htags : a.tags ≠ b.tags) :
    Session.cmp a b = Ordering.eq ∧ Session.eqb a b = false := by
  constructor
  · unfold Session.cmp
    rw [hid]
    simp [Nat.compare_eq_eq]
  · obtain ⟨i, s, e, t, an⟩ := a
    obtain ⟨i', s', e', t', an'⟩ := b
    simp only [Session.eqb]
    simp only [Session.tags] at htags
    simp [htags]

theorem cmp_equal_but_not_eq_witness :
    (⟨1, ⟨2021, 7, 11, 10, 34, 0⟩, none, ["x"], none⟩ : Session).id =
      (⟨1, ⟨2021, 7, 11, 10, 34, 0⟩, none, [], none⟩ : Session).id ∧
    (⟨1, ⟨2021, 7, 11, 10, 34, 0⟩, none, ["x"], none⟩ : Session).tags ≠
      (⟨1, ⟨2021, 7, 11, 10, 34, 0⟩, none, [], none⟩ : Session).tags ∧
    (Session.cmp ⟨1, ⟨2021, 7, 11, 10, 34, 0⟩, none, ["x"], none⟩
        ⟨1, ⟨2021, 7, 11, 10, 34, 0⟩, none, [], none⟩ = Ordering.eq ∧
      Session.eqb ⟨1, ⟨2021, 7, 11, 10, 34, 0⟩, none, ["x"], none⟩
        ⟨1, ⟨2021, 7, 11, 10, 34, 0⟩, none, [], none⟩ = false) :=
  ⟨rfl, by decide, cmp_equal_but_not_eq _ _ rfl (by decide)⟩

/-- Claim C5: the no-end-date record of the repository's unit test decodes
to a session with `end` absent and `start` denoting 2021-07-11 10:34:00 UTC. -/
theorem session_without_end_decodes :
    sessionFromStr "\x7b\"id\":1,\"start\":\"20210711T103400Z\",\"tags\":[\"test\"],\"annotation\":\"this is a test\"\x7d" =
      Except.ok ⟨1, ⟨2021, 7, 11, 10, 34, 0⟩, none, ["test"],
        some "this is a test"⟩ := by
  decide

/-- Claim C8: the minimal input parses to the config map with the single
entry and no sessions. -/
theorem minimal_input_parses :
    TimewarriorData.from_string "k: v\n\n[]" =
      some (Except.ok ⟨[("k", "v")], []⟩) := by
  decide

/-- Claim C2 probe: on input without a `"\n\n"` separator and on input with
a header line lacking `": "`, the code panics (out-of-bounds indexing,
modeled by `none`) instead of returning a `MalformedInput` error — indeed
`ReportError` has no such variant. -/
theorem missing_separator_and_bad_header_panic :
    TimewarriorData.from_string "k: v" = none ∧
    TimewarriorData.from_string "k v\n\n[]" = none := by
  decide

/-- Claim C1 counterexample: on `"k: v\n\n[\n\n]"` the body passed to the
session decoder is `"["` (the segment between the first and second
`"\n\n"`), not everything after the first `"\n\n"`: decoding fails, while
the un-resplit body `"[\n\n]"` would decode to an empty session list. -/
theorem body_is_resplit_counterexample :
    TimewarriorData.from_string "k: v\n\n[\n\n]" =
      some (Except.error (ReportError.SerdeJson "EOF while parsing a value")) ∧
    Session.from_json "[\n\n]" = Except.ok [] ∧
    TimewarriorData.from_string "k: v\n\n[\n\n]" ≠
      some (Except.ok ⟨[("k", "v")], []⟩) := by
  exact ⟨by decide, by decide, by decide⟩

/-- Claim C1 amended: the splitter divides the input at every `"\n\n"`
occurrence; the header is segment 0 and the body passed to the session
decoder is segment 1 — the text between the first and the second
occurrence (the whole remainder only when no second occurrence exists). -/
theorem from_string_uses_second_segment (input hd bd : String)
    (rest : List String) (h : splitInput input = hd :: bd :: rest) :
    TimewarriorData.from_string input =
      match configOfHeaderS hd with
      | none => none
      | some config =>
        some (match Session.from_json bd with
              | Except.error e => Except.error e
              | Except.ok ss => Except.ok ⟨config, ss⟩) := by
  unfold TimewarriorData.from_string
  rw [h]
  simp only [List.headD_cons, List.getElem?_cons_succ, List.getElem?_cons_zero]

theorem from_string_uses_second_segment_witness :
    splitInput "k: v\n\n[]\n\nX" = ["k: v", "[]", "X"] ∧
    TimewarriorData.from_string "k: v\n\n[]\n\nX" =
      match configOfHeaderS "k: v" with
      | none => none
      | some config =>
        some (match Session.from_json "[]" with
              | Except.error e => Except.error e
              | Except.ok ss => Except.ok ⟨config, ss⟩) :=
  ⟨by decide,
   from_string_uses_second_segment "k: v\n\n[]\n\nX" "k: v" "[]" ["X"]
     (by decide)⟩

/-- Claim C3 counterexample: the header line `"k: a: b"` stores the value
`"a"` (segment 1 of the `": "` split), not the whole remainder `"a: b"`. -/
theorem header_value_truncated_counterexample :
    TimewarriorData.from_string "k: a: b\n\n[]" =
      some (Except.ok ⟨[("k", "a")], []⟩) ∧
    TimewarriorData.from_string "k: a: b\n\n[]" ≠
      some (Except.ok ⟨[("k", "a: b")], []⟩) := by
  exact ⟨by decide, by decide⟩

/-- Claim C3 amended: a header line is split at every `": "` occurrence;
the key is segment 0 and the stored value is segment 1 — the text between
the first and the second `": "` (the whole remainder only when no second
occurrence exists); later segments are discarded. -/
theorem header_line_uses_first_two_segments (cfg : List (String × String))
    (line : List Char) (k v : List Char) (rest : List (List Char))
    (h : rsplit [':', ' '] line = k :: v :: rest) :
    headerStep cfg line = some (cfgInsert cfg k.asString v.asString) := by
  unfold headerStep
  rw [h]

theorem header_line_uses_first_two_segments_witness :
    rsplit [':', ' '] "k: a: b".toList =
      ["k".toList, "a".toList, "b".toList] ∧
    headerStep [] "k: a: b".toList =
      some (cfgInsert [] "k".toList.asString "a".toList.asString) :=
  ⟨by decide,
   header_line_uses_first_two_segments [] "k: a: b".toList "k".toList
     "a".toList ["b".toList] (by decide)⟩

/-- Claim C6 counterexample: `"2021071T103400Z"` has fifteen characters, so
it does not match the exact sixteen-character `YYYYMMDDTHHMMSSZ` pattern
(wrong length), yet the codec accepts it — chrono scans `%d` as the single
digit `1` before the literal `T` — and a session IS produced, with start
2021-07-01 10:34:00 UTC. -/
theorem wrong_length_timestamp_accepted_counterexample :
    exactWirePattern "2021071T103400Z" = false ∧
    datetime_from_str "2021071T103400Z" = Except.ok ⟨2021, 7, 1, 10, 34, 0⟩ ∧
    decodeSession (startRecord "2021071T103400Z") =
      Except.ok ⟨1, ⟨2021, 7, 1, 10, 34, 0⟩, none, [], none⟩ := by
  exact ⟨by decide, by decide, by decide⟩

/-- Claim C6 amended: for every session record whose `start` (or present
`end`) string is rejected by the timestamp codec — chrono's flexible-width
parse of `%Y%m%dT%H%M%SZ`, which tolerates unpadded fields, so rejection
means missing digits or literals, trailing input, or out-of-range fields,
rather than mere deviation from the fixed-width pattern — decoding the
record fails with a decode-kind error whose string payload is the codec's
diagnostic for the offending value; no session is produced, and an array
containing such a record fails as a whole (`Session::from_json` wraps the
message into `ReportError::SerdeJson`). -/
theorem rejected_timestamp_decode_error (s m : String)
    (h : datetime_from_str s = Except.error m) :
    decodeSession (startRecord s) = Except.error m ∧
    decodeSession (endRecord s) = Except.error m ∧
    decodeSessions (Json.arr [startRecord s]) = Except.error m := by
  have hstart : decodeSession (startRecord s) = Except.error m := by
    simp [decodeSession, startRecord, decodeFields, decodeField, h]
  have hok : datetime_from_str "20210711T103400Z" =
      Except.ok ⟨2021, 7, 11, 10, 34, 0⟩ := by decide
  have hend : decodeSession (endRecord s) = Except.error m := by
    simp [decodeSession, endRecord, decodeFields, decodeField, h, hok]
  have harr : decodeSessions (Json.arr [startRecord s]) = Except.error m := by
    simp [decodeSessions, decodeSessions.decodeSessionList, hstart]
  exact ⟨hstart, hend, harr⟩

theorem rejected_timestamp_decode_error_witness :
    datetime_from_str "2021-07-11" =
      Except.error "input contains invalid characters" ∧
    (decodeSession (startRecord "2021-07-11") =
        Except.error "input contains invalid characters" ∧
      decodeSession (endRecord "2021-07-11") =
        Except.error "input contains invalid characters" ∧
      decodeSessions (Json.arr [startRecord "2021-07-11"]) =
        Except.error "input contains invalid characters") :=
  ⟨by decide, rejected_timestamp_decode_error "2021-07-11"
    "input contains invalid characters" (by decide)⟩


/-- Claim C7: whenever the header loop returns a configuration, its keys
are distinct (exactly one entry per key) and the value stored for each key
is the one of the last header line whose key it is. -/
theorem config_duplicate_keys_last_wins (hdr : String)
    (cfg : List (String × String)) (h : configOfHeaderS hdr = some cfg) :
    (cfg.map Prod.fst).Nodup ∧
    ∀ k, cfgLookup cfg k = lastValFrom (rlines hdr.toList) k none := by
  unfold configOfHeaderS at h
  obtain ⟨hn, hl⟩ := configLoop_sound _ [] cfg h
  exact ⟨hn (by simp), fun k => hl k⟩

theorem config_duplicate_keys_last_wins_witness :
    configOfHeaderS "a: 1\na: 2" = some [("a", "2")] ∧
    cfgLookup [("a", "2")] "a" =
      lastValFrom (rlines ("a: 1\na: 2").toList) "a" none :=
  ⟨by decide,
   (config_duplicate_keys_last_wins "a: 1\na: 2" [("a", "2")] (by decide)).2 "a"⟩

/-- Claim C9: `from_string` is deterministic — two runs on the same input
agree: on success the two models are equal under the modeled `PartialEq`
(equal config maps and equal, order-sensitive session vectors), on failure
the errors coincide. -/
theorem from_string_deterministic :
    (∀ input r₁ r₂,
        TimewarriorData.from_string input = some (Except.ok r₁) →
        TimewarriorData.from_string input = some (Except.ok r₂) →
        TimewarriorData.eqb r₁ r₂ = true) ∧
    (∀ input e₁ e₂,
        TimewarriorData.from_string input = some (Except.error e₁) →
        TimewarriorData.from_string input = some (Except.error e₂) →
        e₁ = e₂) := by
  constructor
  · intro input r₁ r₂ h₁ h₂
    rw [h₁] at h₂
    have hr : r₁ = r₂ := by
      simp only [Option.some.injEq, Except.ok.injEq] at h₂
      exact h₂
    subst hr
    unfold TimewarriorData.eqb
    refine Bool.and_eq_true_iff.mpr ⟨?_, sessionsEqb_refl _⟩
    exact cfgEqb_refl _ (from_string_ok_nodup input r₁ h₁)
  · intro input e₁ e₂ h₁ h₂
    rw [h₁] at h₂
    simp only [Option.some.injEq, Except.error.injEq] at h₂
    exact h₂

theorem from_string_deterministic_witness :
    TimewarriorData.from_string "k: v\n\n[]" =
      some (Except.ok ⟨[("k", "v")], []⟩) ∧
    TimewarriorData.eqb ⟨[("k", "v")], []⟩ ⟨[("k", "v")], []⟩ = true :=
  ⟨by decide,
   from_string_deterministic.1 "k: v\n\n[]" ⟨[("k", "v")], []⟩
     ⟨[("k", "v")], []⟩ (by decide) (by decide)⟩
